import Mathlib

/-!
Verification of the HDL lexical scanner (package `scanner`, file scanner.go,
together with the `token` and `description` helper packages).

The scanner is shallowly embedded: the input buffer is a `List Nat` of byte
values, runes are `Int` (the end-of-input sentinel is `-1`, as in the Go
source), and the scanner state is an explicit record threaded through every
operation.  Go's unbounded `for` loops are embedded as structurally
recursive functions on an explicit fuel argument; the exported `Scan` runs
every loop with fuel `src.length + 1`, and the termination theorem below
shows this fuel is enough: any larger fuel produces the same result.
-/

namespace Hdl

/-- Position in an input file.  Mirrors `scanner.Position` (file, line,
column); `line` and `col` are the scanner's zero-based counters. -/
structure Position where
  file : String
  line : Nat
  col : Nat
deriving DecidableEq

/-- `Position.Line` from position.go: the first line has index 1. -/
def Position.Line (p : Position) : Nat := p.line + 1

/-- `Position.Column` from position.go: the first column has index 1. -/
def Position.Column (p : Position) : Nat := p.col + 1

/-- `token.Position.Less` from token/position.go: order by line, then by
column (the token package's position carries no file name, so the file
field plays no part). -/
def Position.Less (p q : Position) : Bool :=
  if p.line < q.line then true
  else if q.line < p.line then false
  else decide (p.col < q.col)

/-- The token kinds of token/token.go. -/
inductive Token where
  | ILLEGAL
  | EOF
  | COMMENT
  | IDENT
  | NUMBER
  | TRUE
  | FALSE
  | COMMA
  | SEMICOLON
  | COLON
  | LEFTDELIM
  | RIGTDELIM
  | LEFTPAR
  | RIGHTPAR
  | LEFTINDEX
  | RIGHTINDEX
  | PIPE
  | RANGE
  | DECL
  | IN
  | OUT
  | PARTS
  | CLOCKED
deriving DecidableEq

/-- `token.Lookup`: keyword table, then true/false literals, else IDENT.
Literals are byte lists; the keyword spellings are CHIP, IN, OUT, PARTS,
CLOCKED, true, false in ASCII. -/
def Lookup (s : List Nat) : Token :=
  if s = [67, 72, 73, 80] then .DECL
  else if s = [73, 78] then .IN
  else if s = [79, 85, 84] then .OUT
  else if s = [80, 65, 82, 84, 83] then .PARTS
  else if s = [67, 76, 79, 67, 75, 69, 68] then .CLOCKED
  else if s = [116, 114, 117, 101] then .TRUE
  else if s = [102, 97, 108, 115, 101] then .FALSE
  else .IDENT

/-- The scanner's side-channel error record.  The Go type `scanner.Error`
is constructed in `Scanner.next` as `Error{Position{...}}`; its own source
file is not under src/, so only the position payload visible at the
construction site is modelled. -/
structure ScanError where
  pos : Position
deriving DecidableEq

/-! ## UTF-8 decoding (unicode/utf8 of the Go standard library)

`Scanner.next` calls `utf8.DecodeLastRune` on the buffer suffix starting at
the cursor, so the scanner's behaviour depends on these stdlib functions;
they are embedded here byte for byte from the Go sources. -/

/-- `utf8.RuneError`, the replacement character U+FFFD. -/
def runeError : Int := 0xFFFD

/-- `utf8.RuneStart`: a byte is not a continuation byte
(`b & 0xC0 != 0x80`). -/
def runeStart (b : Nat) : Bool := decide (b < 0x80 ∨ 0xC0 ≤ b)

/-- The `first`/`acceptRanges` tables of utf8.go collapsed to one lookup:
for a leading byte of a multi-byte sequence, the sequence size and the
accepted interval for the second byte; `none` for bytes that cannot lead a
multi-byte sequence (continuation bytes, 0xC0, 0xC1 and 0xF5–0xFF). -/
def acceptRange (b0 : Nat) : Option (Nat × Nat × Nat) :=
  if 0xC2 ≤ b0 ∧ b0 ≤ 0xDF then some (2, 0x80, 0xBF)
  else if b0 = 0xE0 then some (3, 0xA0, 0xBF)
  else if 0xE1 ≤ b0 ∧ b0 ≤ 0xEC then some (3, 0x80, 0xBF)
  else if b0 = 0xED then some (3, 0x80, 0x9F)
  else if 0xEE ≤ b0 ∧ b0 ≤ 0xEF then some (3, 0x80, 0xBF)
  else if b0 = 0xF0 then some (4, 0x90, 0xBF)
  else if 0xF1 ≤ b0 ∧ b0 ≤ 0xF3 then some (4, 0x80, 0xBF)
  else if b0 = 0xF4 then some (4, 0x80, 0x8F)
  else none

/-- `utf8.DecodeRune`.  Continuation bytes of a 3- or 4-byte sequence must
lie in [0x80, 0xBF] (`locb`/`hicb`); the rune value combines the masked
payload bits exactly as in utf8.go (masking written with `%`, which agrees
with Go's `&` on the byte ranges admitted by the guards). -/
def decodeRune (p : List Nat) : Int × Nat :=
  match p with
  | [] => (runeError, 0)
  | b0 :: tail =>
    if b0 < 0x80 then (Int.ofNat b0, 1)
    else
      match acceptRange b0 with
      | none => (runeError, 1)
      | some (sz, lo, hi) =>
        if p.length < sz then (runeError, 1)
        else
          match tail with
          | [] => (runeError, 1)
          | b1 :: tail2 =>
            if b1 < lo ∨ hi < b1 then (runeError, 1)
            else if sz ≤ 2 then
              (Int.ofNat ((b0 % 0x20) * 0x40 + b1 % 0x40), 2)
            else
              match tail2 with
              | [] => (runeError, 1)
              | b2 :: tail3 =>
                if b2 < 0x80 ∨ 0xBF < b2 then (runeError, 1)
                else if sz ≤ 3 then
                  (Int.ofNat ((b0 % 0x10) * 0x1000 + (b1 % 0x40) * 0x40 + b2 % 0x40), 3)
                else
                  match tail3 with
                  | [] => (runeError, 1)
                  | b3 :: _ =>
                    if b3 < 0x80 ∨ 0xBF < b3 then (runeError, 1)
                    else
                      (Int.ofNat ((b0 % 0x8) * 0x40000 + (b1 % 0x40) * 0x1000 +
                        (b2 % 0x40) * 0x40 + b3 % 0x40), 4)

/-- The backwards scan of `utf8.DecodeLastRune`: the start index of the
last UTF-8 encoding in `p`.  Go scans indices `len-2`, `len-3`, `len-4`
(stopping at `lim = max (len-4) 0`) for a non-continuation byte; if none is
found the loop leaves `start = lim - 1`, clamped to 0. -/
def findStart (p : List Nat) : Nat :=
  let e := p.length
  if 2 ≤ e ∧ runeStart (p.getD (e - 2) 0) then e - 2
  else if 3 ≤ e ∧ runeStart (p.getD (e - 3) 0) then e - 3
  else if 4 ≤ e ∧ runeStart (p.getD (e - 4) 0) then e - 4
  else if e ≤ 4 then 0
  else e - 5

/-- `utf8.DecodeLastRune`: decode the LAST rune of `p` (this is what
`Scanner.next` calls on the buffer suffix at the cursor). -/
def decodeLastRune (p : List Nat) : Int × Nat :=
  let e := p.length
  if e = 0 then (runeError, 0)
  else
    let last := p.getD (e - 1) 0
    if last < 0x80 then (Int.ofNat last, 1)
    else
      let start := findStart p
      let rs := decodeRune (p.drop start)
      if start + rs.2 ≠ e then (runeError, 1) else rs

/-! ## Rune classification (scanner.go helpers) -/

/-- `isDigit` from scanner.go: only ASCII 0-9. -/
def isDigit (r : Int) : Bool := decide (48 ≤ r ∧ r ≤ 57)

/-- Restriction of Go's `unicode.IsLetter` to the code points this
development evaluates: ASCII letters and the letters of the Greek and
Coptic block (upper 0x391–0x3A1, lower 0x3A3–0x3C9); it agrees with
`unicode.IsLetter` on those points and on every rune appearing in a
concrete input below.  No theorem in this file depends on the value of
this predicate outside that set. -/
def IsLetter (r : Int) : Bool :=
  decide ((65 ≤ r ∧ r ≤ 90) ∨ (97 ≤ r ∧ r ≤ 122) ∨
    (0x391 ≤ r ∧ r ≤ 0x3A1) ∨ (0x3A3 ≤ r ∧ r ≤ 0x3C9))

/-- `isAlphanumeric` from scanner.go: digits, letters and underscore. -/
def isAlphanumeric (r : Int) : Bool := isDigit r || IsLetter r || decide (r = 95)

/-- `startComment` from scanner.go. -/
def startComment (r : Int) : Bool := decide (r = 47)

/-- Guard of the whitespace loop in `Scanner.skipSpace`:
space, tab, CR, LF. -/
def isSpaceRune (r : Int) : Bool := decide (r = 32 ∨ r = 9 ∨ r = 13 ∨ r = 10)

/-- Guard of the line-comment loop in `Scanner.comment`:
not EOF, not LF, not CR. -/
def notEol (r : Int) : Bool := decide (¬ (r = -1) ∧ ¬ (r = 10) ∧ ¬ (r = 13))

/-! ## Scanner state -/

/-- `scanner.Scanner`: the input, the current rune with its width and
position (all zero-based), the start of the current token, and the side
error list. -/
structure Scanner where
  filename : String
  src : List Nat
  current : Int
  w : Nat
  pos : Nat
  line : Nat
  col : Nat
  start : Nat
  tokLine : Nat
  tokCol : Nat
  errs : List ScanError
deriving DecidableEq

/-- `Scanner.next`: move to the next rune.  Cursor, column and line are
updated first (column advances by the byte width `w` of the previous step;
a newline just consumed resets it); then the rune at the new cursor is
read: ASCII directly, otherwise through `utf8.DecodeLastRune` on the
remaining buffer, recording a `ScanError` when that yields `RuneError`. -/
def next (s : Scanner) : Scanner :=
  let pos := s.pos + s.w
  let line := if s.current = 10 then s.line + 1 else s.line
  let col := if s.current = 10 then 0 else s.col + s.w
  if s.src.length ≤ pos then
    { s with pos := pos, line := line, col := col, current := -1, w := 0 }
  else
    let b := s.src.getD pos 0
    if b < 0x80 then
      { s with pos := pos, line := line, col := col, current := Int.ofNat b, w := 1 }
    else
      let rw := decodeLastRune (s.src.drop pos)
      if rw.1 = runeError then
        { s with pos := pos, line := line, col := col, current := rw.1, w := rw.2,
                 errs := s.errs ++ [⟨⟨s.filename, line, col⟩⟩] }
      else
        { s with pos := pos, line := line, col := col, current := rw.1, w := rw.2 }

/-- `Scanner.moveToken`: record the current position as the start of the
next token. -/
def moveToken (s : Scanner) : Scanner :=
  { s with start := s.pos, tokLine := s.line, tokCol := s.col }

/-- `Scanner.literal`: the bytes between the token start (included) and the
cursor (excluded), i.e. `src[start:pos]`. -/
def literal (s : Scanner) : List Nat := (s.src.take s.pos).drop s.start

/-- `scanner.New`: a zero-valued scanner over the input, advanced once. -/
def New (file : String) (src : List Nat) : Scanner :=
  next { filename := file, src := src, current := 0, w := 0, pos := 0,
         line := 0, col := 0, start := 0, tokLine := 0, tokCol := 0, errs := [] }

/-! ## Loops

Each Go `for` loop of the scanner is one fueled recursion; a fuel step is
one call to `next` on a non-EOF rune, so fuel `src.length + 1` always
suffices (proved below). -/

/-- A Go loop of the shape `for guard(s.current) { s.next() }`.  This is
the whitespace loop of `skipSpace`, the digit and identifier loops of
`Scan`, and the line-comment loop of `comment`, each with its own guard. -/
def runWhile (guard : Int → Bool) : Nat → Scanner → Scanner
  | 0, s => s
  | f + 1, s => if guard s.current then runWhile guard f (next s) else s

/-- `Scanner.skipSpace` with explicit fuel: skip whitespace, then
`moveToken`. -/
def skipSpaceF (f : Nat) (s : Scanner) : Scanner :=
  moveToken (runWhile isSpaceRune f s)

/-- The right-delimiter loop of `Scanner.comment` for `/*` and `/**`
comments: skip to the next `*` or EOF; on EOF return ILLEGAL with the
literal so far (and no `moveToken`); on `*/` consume it and return COMMENT
with the literal and `moveToken`. -/
def blockLoopF : Nat → Scanner → Token × List Nat × Scanner
  | 0, s => (.ILLEGAL, literal s, s)
  | f + 1, s =>
    if s.current ≠ 42 ∧ s.current ≠ -1 then blockLoopF f (next s)
    else if s.current = -1 then (.ILLEGAL, literal s, s)
    else
      let s1 := next s
      if s1.current = 47 then
        let s2 := next s1
        (.COMMENT, literal s2, moveToken s2)
      else blockLoopF f s1

/-- The tail of `Scanner.comment` after the left delimiter is consumed:
if the consumed bytes are exactly `//`, run the line-comment loop, step
once past the terminator (or stay on EOF) and emit COMMENT; otherwise run
the block-comment loop. -/
def commentBodyF (f : Nat) (s : Scanner) : Token × List Nat × Scanner :=
  if literal s = [47, 47] then
    let se := next (runWhile notEol f s)
    (.COMMENT, literal se, moveToken se)
  else
    blockLoopF f s

/-- `Scanner.comment` with explicit fuel, entered with the cursor on the
leading `/`: consume it, dispatch on the following rune (`/` line comment,
`*` block family with the `/**`/`/**/` disambiguation, anything else an
ILLEGAL `/`), then scan the comment body. -/
def commentF (f : Nat) (s0 : Scanner) : Token × List Nat × Scanner :=
  let s := next s0
  if s.current = 47 then
    commentBodyF f (next s)
  else if s.current = 42 then
    let sB := next s
    if sB.current = 42 then
      let sC := next sB
      if sC.current = 47 then
        let sD := next sC
        (.COMMENT, literal sD, moveToken sD)
      else commentBodyF f sC
    else commentBodyF f sB
  else
    (.ILLEGAL, literal s, moveToken s)

/-- The default arm of the `Scan` switch: the inner `switch` over the
simple one-character tokens, falling through to ILLEGAL. -/
def simpleTok (r : Int) : Token :=
  if r = 44 then Token.COMMA
  else if r = 59 then Token.SEMICOLON
  else if r = 58 then Token.COLON
  else if r = 123 then Token.LEFTDELIM
  else if r = 125 then Token.RIGTDELIM
  else if r = 40 then Token.LEFTPAR
  else if r = 41 then Token.RIGHTPAR
  else if r = 91 then Token.LEFTINDEX
  else if r = 93 then Token.RIGHTINDEX
  else if r = 61 then Token.PIPE
  else Token.ILLEGAL

/-- The result of one `Scan` call: position, token, literal, and the
scanner state after the call (Go mutates the receiver). -/
structure ScanResult where
  pos : Position
  tok : Token
  lit : List Nat
  s : Scanner
deriving DecidableEq

/-- The `switch` statement of `Scanner.Scan`, entered on the state left by
`skipSpace`: remember the token position, then classify by the current
rune exactly as in scanner.go. -/
def scanBody (f : Nat) (s : Scanner) : ScanResult :=
  let pos : Position := ⟨s.filename, s.tokLine, s.tokCol⟩
  if s.current = -1 then
    ⟨pos, .EOF, [], s⟩
  else if isDigit s.current then
    let se := runWhile isDigit f s
    ⟨pos, .NUMBER, literal se, moveToken se⟩
  else if IsLetter s.current then
    let se := runWhile isAlphanumeric f s
    let lit := literal se
    ⟨pos, Lookup lit, lit, moveToken se⟩
  else if s.current = 46 then
    let s1 := next s
    if s1.current = 46 then
      ⟨pos, .RANGE, [46, 46], next s1⟩
    else
      ⟨pos, .ILLEGAL, [46], s1⟩
  else if startComment s.current then
    let r := commentF f s
    ⟨pos, r.1, r.2.1, r.2.2⟩
  else
    let se := next s
    ⟨pos, simpleTok s.current, literal se, moveToken se⟩

/-- `Scanner.Scan` with explicit loop fuel: skip whitespace, then run the
classification switch. -/
def ScanF (f : Nat) (s0 : Scanner) : ScanResult := scanBody f (skipSpaceF f s0)

/-- `Scanner.Scan`: every loop gets fuel `src.length + 1`, which the
termination theorem shows is enough. -/
def Scan (s : Scanner) : ScanResult := ScanF (s.src.length + 1) s

/-- The scanner state after `n` further `Scan` calls. -/
def afterN (s : Scanner) : Nat → Scanner
  | 0 => s
  | n + 1 => (Scan (afterN s n)).s

/-- The result of the `(n+1)`-th `Scan` call starting from state `s`. -/
def resN (s : Scanner) (n : Nat) : ScanResult := Scan (afterN s n)

/-! ## The description.Comment value type (description/comment.go) -/

/-- `description.Comment`: start and end positions and the full literal
text including delimiters (the Go field is named `end`). -/
structure Comment where
  start : Position
  endPos : Position
  lit : List Nat
deriving DecidableEq

/-- `strings.HasPrefix` on byte lists. -/
def hasPrefix (s p : List Nat) : Bool := decide (s.take p.length = p)

/-- `Comment.IsEOL`: the literal starts with `//`. -/
def Comment.IsEOL (c : Comment) : Bool := hasPrefix c.lit [47, 47]

/-- `Comment.IsMultiline`: the literal starts with `/*`. -/
def Comment.IsMultiline (c : Comment) : Bool := hasPrefix c.lit [47, 42]

/-- `Comment.IsAPI`: the literal starts with `/**` (a plain prefix test in
comment.go). -/
def Comment.IsAPI (c : Comment) : Bool := hasPrefix c.lit [47, 42, 42]

/-! ## The cursor invariant -/

/-- Every state the scanner actually reaches satisfies this: away from
EOF, the pending width is at least one byte and does not run past the
buffer.  It is what makes every loop progress. -/
def Inv (s : Scanner) : Prop :=
  s.current ≠ -1 → 1 ≤ s.w ∧ s.pos + s.w ≤ s.src.length

/-! ## Field bookkeeping for `next` and `moveToken` -/

theorem moveToken_current (s : Scanner) : (moveToken s).current = s.current := rfl

theorem moveToken_lc (s : Scanner) : ((moveToken s).line, (moveToken s).col) = (s.line, s.col) := rfl

theorem next_src (s : Scanner) : (next s).src = s.src := by
  unfold next
  dsimp only
  split
  · rfl
  · split
    · rfl
    · split <;> rfl

theorem next_filename (s : Scanner) : (next s).filename = s.filename := by
  unfold next
  dsimp only
  split
  · rfl
  · split
    · rfl
    · split <;> rfl

theorem next_start (s : Scanner) : (next s).start = s.start := by
  unfold next
  dsimp only
  split
  · rfl
  · split
    · rfl
    · split <;> rfl

theorem next_pos (s : Scanner) : (next s).pos = s.pos + s.w := by
  unfold next
  dsimp only
  split
  · rfl
  · split
    · rfl
    · split <;> rfl

theorem next_line (s : Scanner) :
    (next s).line = if s.current = 10 then s.line + 1 else s.line := by
  unfold next
  dsimp only
  split
  · rfl
  · split
    · rfl
    · split <;> rfl

theorem next_col (s : Scanner) :
    (next s).col = if s.current = 10 then 0 else s.col + s.w := by
  unfold next
  dsimp only
  split
  · rfl
  · split
    · rfl
    · split <;> rfl

/-! ## Decoder size bounds -/

theorem decodeRune_size (p : List Nat) (h : p ≠ []) :
    1 ≤ (decodeRune p).2 ∧ (decodeRune p).2 ≤ p.length := by
  rcases p with _ | ⟨b0, tail⟩
  · exact absurd rfl h
  · unfold decodeRune
    rcases hA : acceptRange b0 with _ | ⟨sz, lo, hi⟩ <;>
      rcases tail with _ | ⟨b1, tail2⟩ <;>
        (try rcases tail2 with _ | ⟨b2, tail3⟩) <;>
          (try rcases tail3 with _ | ⟨b3, rest⟩) <;>
            simp only [hA] <;> split_ifs <;> simp [List.length_cons]

theorem findStart_lt (p : List Nat) (h : p ≠ []) : findStart p < p.length := by
  have hp : 0 < p.length := List.length_pos.mpr h
  unfold findStart
  dsimp only
  split_ifs with h1 h2 h3 h4 <;> omega

theorem decodeLastRune_size (p : List Nat) (h : p ≠ []) :
    1 ≤ (decodeLastRune p).2 ∧ (decodeLastRune p).2 ≤ p.length := by
  have hp : 0 < p.length := List.length_pos.mpr h
  unfold decodeLastRune
  dsimp only
  split_ifs with h1 h2 h3
  · omega
  · omega
  · omega
  · -- the guarded branch: start + size = length
    have hs : findStart p < p.length := findStart_lt p h
    have hdrop : p.drop (findStart p) ≠ [] := by
      intro hd
      have := List.length_drop (findStart p) p
      rw [hd] at this
      simp at this
      omega
    have hsz := decodeRune_size (p.drop (findStart p)) hdrop
    have hlen : (p.drop (findStart p)).length = p.length - findStart p :=
      List.length_drop _ _
    push_neg at h3
    omega

/-! ## The invariant is established by `next` and preserved everywhere -/

theorem inv_next (s : Scanner) : Inv (next s) := by
  unfold next Inv
  dsimp only
  split
  · intro hc
    exact absurd rfl hc
  · rename_i hlt
    push_neg at hlt
    split
    · intro _
      refine ⟨le_refl 1, ?_⟩
      dsimp only
      omega
    · have hdrop : s.src.drop (s.pos + s.w) ≠ [] := by
        intro hd
        have := List.length_drop (s.pos + s.w) s.src
        rw [hd] at this
        simp at this
        omega
      have hsz := decodeLastRune_size (s.src.drop (s.pos + s.w)) hdrop
      have hlen : (s.src.drop (s.pos + s.w)).length = s.src.length - (s.pos + s.w) :=
        List.length_drop _ _
      split <;> intro _ <;> dsimp only <;> omega

theorem inv_New (file : String) (src : List Nat) : Inv (New file src) := inv_next _

theorem inv_moveToken (s : Scanner) (h : Inv s) : Inv (moveToken s) := h

/-! ## Loop preservation lemmas -/

theorem runWhile_src (g : Int → Bool) (f : Nat) (s : Scanner) :
    (runWhile g f s).src = s.src := by
  induction f generalizing s with
  | zero => rfl
  | succ f ih =>
    rw [runWhile]
    split
    · rw [ih (next s), next_src]
    · rfl

theorem runWhile_filename (g : Int → Bool) (f : Nat) (s : Scanner) :
    (runWhile g f s).filename = s.filename := by
  induction f generalizing s with
  | zero => rfl
  | succ f ih =>
    rw [runWhile]
    split
    · rw [ih (next s), next_filename]
    · rfl

theorem runWhile_start (g : Int → Bool) (f : Nat) (s : Scanner) :
    (runWhile g f s).start = s.start := by
  induction f generalizing s with
  | zero => rfl
  | succ f ih =>
    rw [runWhile]
    split
    · rw [ih (next s), next_start]
    · rfl

theorem runWhile_inv (g : Int → Bool) (f : Nat) (s : Scanner) (h : Inv s) :
    Inv (runWhile g f s) := by
  induction f generalizing s with
  | zero => exact h
  | succ f ih =>
    rw [runWhile]
    split
    · exact ih (next s) (inv_next s)
    · exact h

/-- A loop whose guard rejects the current rune does not move. -/
theorem runWhile_stop (g : Int → Bool) (f : Nat) (s : Scanner) (h : g s.current = false) :
    runWhile g f s = s := by
  cases f with
  | zero => rfl
  | succ f => rw [runWhile, h]; exact if_neg (by simp)

/-- Fuel irrelevance: once the fuel covers the remaining buffer, adding
more changes nothing.  This is the termination argument for every
`for guard { next }` loop of the scanner. -/
theorem runWhile_fuel (g : Int → Bool) (hg : g (-1) = false) :
    ∀ f k s, Inv s → s.src.length + 1 - s.pos ≤ f →
      runWhile g (f + k) s = runWhile g f s := by
  intro f
  induction f with
  | zero =>
    intro k s hInv hb
    have hcur : s.current = -1 := by
      by_contra hc
      rcases hInv hc with ⟨h1, h2⟩
      omega
    rw [Nat.zero_add]
    calc runWhile g k s = s := runWhile_stop g k s (by rw [hcur, hg])
      _ = runWhile g 0 s := rfl
  | succ f ih =>
    intro k s hInv hb
    have hsum : f + 1 + k = (f + k) + 1 := by omega
    rw [hsum, runWhile, runWhile]
    split
    · rename_i hgd
      have hc : s.current ≠ -1 := by
        intro h
        rw [h, hg] at hgd
        cases hgd
      rcases hInv hc with ⟨h1, h2⟩
      exact ih k (next s) (inv_next s) (by rw [next_src, next_pos]; omega)
    · rfl

theorem blockLoopF_src (f : Nat) (s : Scanner) :
    ((blockLoopF f s).2.2).src = s.src := by
  induction f generalizing s with
  | zero => rfl
  | succ f ih =>
    rw [blockLoopF]
    split
    · rw [ih (next s), next_src]
    · split
      · rfl
      · dsimp only
        split
        · show (moveToken (next (next s))).src = s.src
          show (next (next s)).src = s.src
          rw [next_src, next_src]
        · rw [ih (next s), next_src]

theorem blockLoopF_filename (f : Nat) (s : Scanner) :
    ((blockLoopF f s).2.2).filename = s.filename := by
  induction f generalizing s with
  | zero => rfl
  | succ f ih =>
    rw [blockLoopF]
    split
    · rw [ih (next s), next_filename]
    · split
      · rfl
      · dsimp only
        split
        · show (next (next s)).filename = s.filename
          rw [next_filename, next_filename]
        · rw [ih (next s), next_filename]

theorem blockLoopF_inv (f : Nat) (s : Scanner) (h : Inv s) :
    Inv ((blockLoopF f s).2.2) := by
  induction f generalizing s with
  | zero => exact h
  | succ f ih =>
    rw [blockLoopF]
    split
    · exact ih (next s) (inv_next s)
    · split
      · exact h
      · dsimp only
        split
        · exact inv_moveToken _ (inv_next _)
        · exact ih (next s) (inv_next s)

/-- The block-comment loop produces only ILLEGAL (unterminated) or COMMENT. -/
theorem blockLoopF_tok (f : Nat) (s : Scanner) :
    (blockLoopF f s).1 = .ILLEGAL ∨ (blockLoopF f s).1 = .COMMENT := by
  induction f generalizing s with
  | zero => exact Or.inl rfl
  | succ f ih =>
    rw [blockLoopF]
    split
    · exact ih (next s)
    · split
      · exact Or.inl rfl
      · dsimp only
        split
        · exact Or.inr rfl
        · exact ih (next s)

theorem blockLoopF_fuel :
    ∀ f k s, Inv s → s.src.length + 1 - s.pos ≤ f →
      blockLoopF (f + k) s = blockLoopF f s := by
  intro f
  induction f with
  | zero =>
    intro k s hInv hb
    have hcur : s.current = -1 := by
      by_contra hc
      rcases hInv hc with ⟨h1, h2⟩
      omega
    rw [Nat.zero_add]
    have hstop : ∀ m, blockLoopF m s = (Token.ILLEGAL, literal s, s) := by
      intro m
      cases m with
      | zero => rfl
      | succ m =>
        have hA : ¬ (s.current ≠ 42 ∧ s.current ≠ -1) := fun h => h.2 hcur
        rw [blockLoopF, if_neg hA, if_pos hcur]
    rw [hstop, hstop]
  | succ f ih =>
    intro k s hInv hb
    have hsum : f + 1 + k = (f + k) + 1 := by omega
    rw [hsum, blockLoopF, blockLoopF]
    split
    · rename_i hgd
      have hc : s.current ≠ -1 := hgd.2
      rcases hInv hc with ⟨h1, h2⟩
      exact ih k (next s) (inv_next s) (by rw [next_src, next_pos]; omega)
    · split
      · rfl
      · rename_i hgd hne
        have hc : s.current ≠ -1 := hne
        rcases hInv hc with ⟨h1, h2⟩
        dsimp only
        split
        · rfl
        · exact ih k (next s) (inv_next s) (by rw [next_src, next_pos]; omega)

theorem commentBodyF_fuel (f k : Nat) (s : Scanner) (hInv : Inv s)
    (hb : s.src.length + 1 - s.pos ≤ f) :
    commentBodyF (f + k) s = commentBodyF f s := by
  unfold commentBodyF
  split
  · rw [runWhile_fuel notEol (by rfl) f k s hInv hb]
  · exact blockLoopF_fuel f k s hInv hb

theorem commentF_fuel (f k : Nat) (s0 : Scanner) (hb : s0.src.length + 1 ≤ f) :
    commentF (f + k) s0 = commentF f s0 := by
  have hbAt : ∀ t : Scanner, t.src = s0.src → t.src.length + 1 - t.pos ≤ f := by
    intro t ht
    rw [ht]
    omega
  unfold commentF
  dsimp only
  split
  · exact commentBodyF_fuel f k _ (inv_next _)
      (hbAt _ (by rw [next_src, next_src]))
  · split
    · split
      · split
        · rfl
        · exact commentBodyF_fuel f k _ (inv_next _)
            (hbAt _ (by rw [next_src, next_src, next_src]))
      · exact commentBodyF_fuel f k _ (inv_next _)
          (hbAt _ (by rw [next_src, next_src]))
    · rfl

theorem commentBodyF_inv (f : Nat) (s : Scanner) (h : Inv s) :
    Inv (commentBodyF f s).2.2 := by
  unfold commentBodyF
  split
  · exact inv_moveToken _ (inv_next _)
  · exact blockLoopF_inv f s h

theorem commentF_inv (f : Nat) (s0 : Scanner) : Inv (commentF f s0).2.2 := by
  unfold commentF
  dsimp only
  split
  · exact commentBodyF_inv f _ (inv_next _)
  · split
    · split
      · split
        · exact inv_moveToken _ (inv_next _)
        · exact commentBodyF_inv f _ (inv_next _)
      · exact commentBodyF_inv f _ (inv_next _)
    · exact inv_moveToken _ (inv_next _)

/-- Fuel irrelevance for the classification switch: with fuel covering the
whole buffer, every internal loop has already reached its exit condition. -/
theorem scanBody_fuel (F extra : Nat) (u : Scanner) (hU : Inv u)
    (hb : u.src.length + 1 ≤ F) :
    scanBody (F + extra) u = scanBody F u := by
  have hb2 : u.src.length + 1 - u.pos ≤ F := by omega
  simp only [scanBody]
  rw [runWhile_fuel isDigit (by decide) F extra u hU hb2,
      runWhile_fuel isAlphanumeric (by decide) F extra u hU hb2,
      commentF_fuel F extra u hb]

theorem scanBody_inv (F : Nat) (u : Scanner) (hU : Inv u) : Inv (scanBody F u).s := by
  unfold scanBody
  by_cases h1 : u.current = -1
  · rw [if_pos h1]; exact hU
  · rw [if_neg h1]
    by_cases h2 : isDigit u.current = true
    · rw [if_pos h2]; exact inv_moveToken _ (runWhile_inv _ _ _ hU)
    · rw [if_neg h2]
      by_cases h3 : IsLetter u.current = true
      · rw [if_pos h3]; exact inv_moveToken _ (runWhile_inv _ _ _ hU)
      · rw [if_neg h3]
        by_cases h4 : u.current = 46
        · rw [if_pos h4]
          by_cases h4b : (next u).current = 46
          · rw [if_pos h4b]; exact inv_next _
          · rw [if_neg h4b]; exact inv_next _
        · rw [if_neg h4]
          by_cases h5 : startComment u.current = true
          · rw [if_pos h5]; exact commentF_inv F _
          · rw [if_neg h5]; exact inv_moveToken _ (inv_next _)

/-- Fuel irrelevance for a whole `Scan` call: the standard fuel
`src.length + 1` is enough, extra fuel changes nothing. -/
theorem ScanF_fuel (s : Scanner) (extra : Nat) (hInv : Inv s) :
    ScanF (s.src.length + 1 + extra) s = ScanF (s.src.length + 1) s := by
  have hsp : runWhile isSpaceRune (s.src.length + 1 + extra) s
      = runWhile isSpaceRune (s.src.length + 1) s :=
    runWhile_fuel isSpaceRune (by decide) (s.src.length + 1) extra s hInv (by omega)
  unfold ScanF skipSpaceF
  rw [hsp]
  exact scanBody_fuel (s.src.length + 1) extra _
    (inv_moveToken _ (runWhile_inv _ _ _ hInv))
    (by rw [show (moveToken (runWhile isSpaceRune (s.src.length + 1) s)).src = s.src
          from runWhile_src _ _ _])

theorem scanF_inv (f : Nat) (s : Scanner) (hInv : Inv s) : Inv (ScanF f s).s :=
  scanBody_inv f _ (inv_moveToken _ (runWhile_inv _ _ _ hInv))

/-! ## End-of-input behaviour -/

theorem lookup_ne_eof (l : List Nat) : Lookup l ≠ .EOF := by
  unfold Lookup
  split_ifs <;> simp

theorem simpleTok_ne_eof (r : Int) : simpleTok r ≠ .EOF := by
  unfold simpleTok
  split_ifs <;> simp

theorem commentBodyF_tok (f : Nat) (s : Scanner) :
    (commentBodyF f s).1 = .ILLEGAL ∨ (commentBodyF f s).1 = .COMMENT := by
  unfold commentBodyF
  split
  · exact Or.inr rfl
  · exact blockLoopF_tok f s

theorem commentF_tok (f : Nat) (s0 : Scanner) :
    (commentF f s0).1 = .ILLEGAL ∨ (commentF f s0).1 = .COMMENT := by
  unfold commentF
  dsimp only
  split
  · exact commentBodyF_tok f _
  · split
    · split
      · split
        · exact Or.inr rfl
        · exact commentBodyF_tok f _
      · exact commentBodyF_tok f _
    · exact Or.inl rfl

/-- At end of input the switch takes the EOF branch and moves nothing. -/
theorem scanBody_at_eof (F : Nat) (u : Scanner) (h : u.current = -1) :
    scanBody F u = ⟨⟨u.filename, u.tokLine, u.tokCol⟩, .EOF, [], u⟩ := by
  unfold scanBody
  rw [if_pos h]

/-- Only the end-of-input branch yields the EOF token. -/
theorem scanBody_eof (F : Nat) (u : Scanner) (h : (scanBody F u).tok = .EOF) :
    u.current = -1 := by
  by_contra h1
  unfold scanBody at h
  rw [if_neg h1] at h
  by_cases h2 : isDigit u.current = true
  · rw [if_pos h2] at h
    exact Token.noConfusion h
  · rw [if_neg h2] at h
    by_cases h3 : IsLetter u.current = true
    · rw [if_pos h3] at h
      exact lookup_ne_eof _ h
    · rw [if_neg h3] at h
      by_cases h4 : u.current = 46
      · rw [if_pos h4] at h
        by_cases h4b : (next u).current = 46
        · rw [if_pos h4b] at h
          exact Token.noConfusion h
        · rw [if_neg h4b] at h
          exact Token.noConfusion h
      · rw [if_neg h4] at h
        by_cases h5 : startComment u.current = true
        · rw [if_pos h5] at h
          dsimp only at h
          rcases commentF_tok F u with hc | hc <;> rw [hc] at h <;> exact Token.noConfusion h
        · rw [if_neg h5] at h
          exact simpleTok_ne_eof u.current h

/-- Scanning at end of input yields EOF and only runs `moveToken`. -/
theorem scan_at_eof (s : Scanner) (h : s.current = -1) :
    Scan s = ⟨⟨s.filename, s.line, s.col⟩, .EOF, [], moveToken s⟩ := by
  unfold Scan ScanF skipSpaceF
  rw [runWhile_stop isSpaceRune _ s (by rw [h]; rfl)]
  exact scanBody_at_eof _ _ h

/-- After a `Scan` call that returned EOF, the cursor is at end of input. -/
theorem scan_tok_eof_state (s : Scanner) (h : (Scan s).tok = .EOF) :
    (Scan s).s.current = -1 := by
  have h1 : (skipSpaceF (s.src.length + 1) s).current = -1 := scanBody_eof _ _ h
  unfold Scan ScanF
  rw [scanBody_at_eof _ _ h1]
  exact h1

/-- From an end-of-input state, every later `Scan` call returns EOF and
stays at end of input. -/
theorem eof_forever (s : Scanner) (h : s.current = -1) (n : Nat) :
    (resN s n).tok = .EOF ∧ (afterN s n).current = -1 := by
  induction n with
  | zero =>
    refine ⟨?_, h⟩
    show (Scan s).tok = .EOF
    rw [scan_at_eof s h]
  | succ n ih =>
    have hstate : (afterN s (n + 1)).current = -1 := by
      show ((Scan (afterN s n)).s).current = -1
      rw [scan_at_eof _ ih.2]
      exact ih.2
    refine ⟨?_, hstate⟩
    show (Scan (afterN s (n + 1))).tok = .EOF
    rw [scan_at_eof _ hstate]

theorem afterN_shift (s : Scanner) (n : Nat) :
    afterN s (n + 1) = afterN (Scan s).s n := by
  induction n with
  | zero => rfl
  | succ n ih =>
    show (Scan (afterN s (n + 1))).s = afterN (Scan s).s (n + 1)
    rw [ih]
    rfl

/-! ## Position monotonicity -/

/-- Lexicographic order on the scanner's zero-based (line, column). -/
def lcLe (a b : Nat × Nat) : Prop := a.1 < b.1 ∨ (a.1 = b.1 ∧ a.2 ≤ b.2)

def lcOf (s : Scanner) : Nat × Nat := (s.line, s.col)

theorem lcLe_refl (a : Nat × Nat) : lcLe a a := Or.inr ⟨rfl, le_refl _⟩

theorem lcLe_trans {a b c : Nat × Nat} (h1 : lcLe a b) (h2 : lcLe b c) : lcLe a c := by
  unfold lcLe at h1 h2 ⊢
  omega

theorem next_lc (s : Scanner) : lcLe (lcOf s) (lcOf (next s)) := by
  unfold lcOf lcLe
  rw [next_line, next_col]
  by_cases h : s.current = 10
  · rw [if_pos h, if_pos h]
    left
    dsimp only
    omega
  · rw [if_neg h, if_neg h]
    right
    exact ⟨rfl, by dsimp only; omega⟩

theorem moveToken_lcOf (s : Scanner) : lcOf (moveToken s) = lcOf s := rfl

theorem runWhile_lc (g : Int → Bool) (f : Nat) (s : Scanner) :
    lcLe (lcOf s) (lcOf (runWhile g f s)) := by
  induction f generalizing s with
  | zero => exact lcLe_refl _
  | succ f ih =>
    rw [runWhile]
    split
    · exact lcLe_trans (next_lc s) (ih (next s))
    · exact lcLe_refl _

theorem blockLoopF_lc (f : Nat) (s : Scanner) :
    lcLe (lcOf s) (lcOf (blockLoopF f s).2.2) := by
  induction f generalizing s with
  | zero => exact lcLe_refl _
  | succ f ih =>
    rw [blockLoopF]
    split
    · exact lcLe_trans (next_lc s) (ih (next s))
    · split
      · exact lcLe_refl _
      · dsimp only
        split
        · show lcLe (lcOf s) (lcOf (moveToken (next (next s))))
          rw [moveToken_lcOf]
          exact lcLe_trans (next_lc s) (next_lc (next s))
        · exact lcLe_trans (next_lc s) (ih (next s))

theorem commentBodyF_lc (f : Nat) (s : Scanner) :
    lcLe (lcOf s) (lcOf (commentBodyF f s).2.2) := by
  unfold commentBodyF
  split
  · show lcLe (lcOf s) (lcOf (moveToken (next (runWhile notEol f s))))
    rw [moveToken_lcOf]
    exact lcLe_trans (runWhile_lc notEol f s) (next_lc _)
  · exact blockLoopF_lc f s

theorem commentF_lc (f : Nat) (s0 : Scanner) :
    lcLe (lcOf s0) (lcOf (commentF f s0).2.2) := by
  unfold commentF
  dsimp only
  split
  · exact lcLe_trans (next_lc s0) (lcLe_trans (next_lc _) (commentBodyF_lc f _))
  · split
    · split
      · split
        · show lcLe (lcOf s0) (lcOf (moveToken (next (next (next (next s0))))))
          rw [moveToken_lcOf]
          exact lcLe_trans (next_lc s0) (lcLe_trans (next_lc _)
            (lcLe_trans (next_lc _) (next_lc _)))
        · exact lcLe_trans (next_lc s0) (lcLe_trans (next_lc _)
            (lcLe_trans (next_lc _) (commentBodyF_lc f _)))
      · exact lcLe_trans (next_lc s0) (lcLe_trans (next_lc _) (commentBodyF_lc f _))
    · show lcLe (lcOf s0) (lcOf (moveToken (next s0)))
      rw [moveToken_lcOf]
      exact next_lc s0

theorem scanBody_lc (F : Nat) (u : Scanner) :
    lcLe (lcOf u) (lcOf (scanBody F u).s) := by
  unfold scanBody
  by_cases h1 : u.current = -1
  · rw [if_pos h1]
    exact lcLe_refl _
  · rw [if_neg h1]
    by_cases h2 : isDigit u.current = true
    · rw [if_pos h2]
      show lcLe (lcOf u) (lcOf (moveToken (runWhile isDigit F u)))
      rw [moveToken_lcOf]
      exact runWhile_lc _ _ _
    · rw [if_neg h2]
      by_cases h3 : IsLetter u.current = true
      · rw [if_pos h3]
        show lcLe (lcOf u) (lcOf (moveToken (runWhile isAlphanumeric F u)))
        rw [moveToken_lcOf]
        exact runWhile_lc _ _ _
      · rw [if_neg h3]
        by_cases h4 : u.current = 46
        · rw [if_pos h4]
          by_cases h4b : (next u).current = 46
          · rw [if_pos h4b]
            exact lcLe_trans (next_lc u) (next_lc _)
          · rw [if_neg h4b]
            exact next_lc u
        · rw [if_neg h4]
          by_cases h5 : startComment u.current = true
          · rw [if_pos h5]
            exact commentF_lc F u
          · rw [if_neg h5]
            show lcLe (lcOf u) (lcOf (moveToken (next u)))
            rw [moveToken_lcOf]
            exact next_lc u

/-- The returned position is the (line, col) reached by the whitespace
skip, stamped by its `moveToken`. -/
theorem scanBody_pos (F : Nat) (u : Scanner) :
    (scanBody F u).pos = ⟨u.filename, u.tokLine, u.tokCol⟩ := by
  unfold scanBody
  by_cases h1 : u.current = -1
  · rw [if_pos h1]
  · rw [if_neg h1]
    by_cases h2 : isDigit u.current = true
    · rw [if_pos h2]
    · rw [if_neg h2]
      by_cases h3 : IsLetter u.current = true
      · rw [if_pos h3]
      · rw [if_neg h3]
        by_cases h4 : u.current = 46
        · rw [if_pos h4]
          by_cases h4b : (next u).current = 46
          · rw [if_pos h4b]
          · rw [if_neg h4b]
        · rw [if_neg h4]
          by_cases h5 : startComment u.current = true
          · rw [if_pos h5]
          · rw [if_neg h5]

theorem scan_pos (s : Scanner) :
    (Scan s).pos = ⟨(runWhile isSpaceRune (s.src.length + 1) s).filename,
                    (runWhile isSpaceRune (s.src.length + 1) s).line,
                    (runWhile isSpaceRune (s.src.length + 1) s).col⟩ := by
  unfold Scan ScanF skipSpaceF
  rw [scanBody_pos]
  rfl

theorem scan_lc (s : Scanner) :
    lcLe (lcOf (runWhile isSpaceRune (s.src.length + 1) s)) (lcOf (Scan s).s) := by
  have h := scanBody_lc (s.src.length + 1)
    (moveToken (runWhile isSpaceRune (s.src.length + 1) s))
  rw [moveToken_lcOf] at h
  exact h

theorem scan_pos_mono (s : Scanner) :
    lcLe ((Scan s).pos.line, (Scan s).pos.col)
         ((Scan (Scan s).s).pos.line, (Scan (Scan s).s).pos.col) := by
  have h1 : ((Scan s).pos.line, (Scan s).pos.col)
      = lcOf (runWhile isSpaceRune (s.src.length + 1) s) := by
    rw [scan_pos]
    rfl
  have h2 : ((Scan (Scan s).s).pos.line, (Scan (Scan s).s).pos.col)
      = lcOf (runWhile isSpaceRune ((Scan s).s.src.length + 1) (Scan s).s) := by
    rw [scan_pos]
    rfl
  rw [h1, h2]
  exact lcLe_trans (scan_lc s) (runWhile_lc _ _ _)

theorem lcLe_not_less (p q : Position) (h : lcLe (p.line, p.col) (q.line, q.col)) :
    Position.Less q p = false := by
  unfold Position.Less
  unfold lcLe at h
  dsimp only at h
  split_ifs with a b
  · exact absurd a (by omega)
  · rfl
  · simp only [decide_eq_false_iff_not]
    omega

/-! ## Branch characterisations used by the claims -/

/-- A `.` whose follower is not another `.` yields ILLEGAL with literal
`"."`; the returned state is exactly one `next` past the dot (the dot is
consumed, nothing else; no `moveToken` runs). -/
theorem scanBody_dot (F : Nat) (u : Scanner) (h : u.current = 46)
    (hne : (next u).current ≠ 46) :
    scanBody F u = ⟨⟨u.filename, u.tokLine, u.tokCol⟩, .ILLEGAL, [46], next u⟩ := by
  unfold scanBody
  have c1 : ¬ (u.current = -1) := by rw [h]; decide
  have c2 : ¬ (isDigit u.current = true) := by rw [h]; decide
  have c3 : ¬ (IsLetter u.current = true) := by rw [h]; decide
  rw [if_neg c1, if_neg c2, if_neg c3, if_pos h, if_neg hne]

/-- The line-comment branch: after `//`, run the loop to CR/LF/EOF, then
step once more and slice the literal, so the literal extends past the
loop's stopping point by the pending width. -/
theorem scanBody_lineComment (F : Nat) (u : Scanner)
    (h1 : u.current = 47)
    (h2 : (next u).current = 47)
    (h3 : literal (next (next u)) = [47, 47]) :
    scanBody F u = ⟨⟨u.filename, u.tokLine, u.tokCol⟩, .COMMENT,
      literal (next (runWhile notEol F (next (next u)))),
      moveToken (next (runWhile notEol F (next (next u))))⟩ := by
  unfold scanBody
  have c1 : ¬ (u.current = -1) := by rw [h1]; decide
  have c2 : ¬ (isDigit u.current = true) := by rw [h1]; decide
  have c3 : ¬ (IsLetter u.current = true) := by rw [h1]; decide
  have c4 : ¬ (u.current = 46) := by rw [h1]; decide
  have c5 : startComment u.current = true := by rw [h1]; decide
  rw [if_neg c1, if_neg c2, if_neg c3, if_neg c4, if_pos c5]
  have hc : commentF F u = (.COMMENT,
      literal (next (runWhile notEol F (next (next u)))),
      moveToken (next (runWhile notEol F (next (next u))))) := by
    unfold commentF
    dsimp only
    rw [if_pos h2]
    unfold commentBodyF
    rw [if_pos h3]
  dsimp only
  rw [hc]

/-! ## The claims -/

/-- C1, counterexample.  The claim says a token immediately following the
four multi-byte runes of "γθιπ" starts at column 5 (one column per rune).
On the input "γθιπ;" the code instead returns SEMICOLON as the very first
token (the scanner decodes the LAST rune of the remaining buffer), and the
second token starts at column 2, not 5. -/
theorem claim1_counterexample :
    (resN (New "f" [206, 179, 206, 184, 206, 185, 207, 128, 59]) 0).tok = .SEMICOLON
    ∧ ¬ (resN (New "f" [206, 179, 206, 184, 206, 185, 207, 128, 59]) 0).tok = .IDENT
    ∧ (resN (New "f" [206, 179, 206, 184, 206, 185, 207, 128, 59]) 1).pos.Column = 2
    ∧ ¬ (resN (New "f" [206, 179, 206, 184, 206, 185, 207, 128, 59]) 1).pos.Column = 5 := by
  decide

/-- C1, amended.  The column counter advances by the byte width consumed
at each step (resetting after a newline), not by one per rune: scanning
"γθιπ" alone yields one IDENT token at column 1 whose literal is the full
8-byte slice, and leaves the zero-based column counter at 8, so the EOF
that follows is reported at column 9, not 5. -/
theorem claim1_amended :
    (∀ s : Scanner, (next s).col = if s.current = 10 then 0 else s.col + s.w)
    ∧ (Scan (New "f" [206, 179, 206, 184, 206, 185, 207, 128])).tok = .IDENT
    ∧ (Scan (New "f" [206, 179, 206, 184, 206, 185, 207, 128])).pos.Column = 1
    ∧ (Scan (New "f" [206, 179, 206, 184, 206, 185, 207, 128])).lit
        = [206, 179, 206, 184, 206, 185, 207, 128]
    ∧ (Scan (New "f" [206, 179, 206, 184, 206, 185, 207, 128])).s.col = 8
    ∧ (resN (New "f" [206, 179, 206, 184, 206, 185, 207, 128]) 1).tok = .EOF
    ∧ (resN (New "f" [206, 179, 206, 184, 206, 185, 207, 128]) 1).pos.Column = 9 :=
  ⟨next_col, by decide, by decide, by decide, by decide, by decide, by decide⟩

/-- C2, counterexample.  The claim says an unterminated block comment
produces one ILLEGAL token and no subsequent tokens, not even EOF.  On the
input "/* unterminated" the first call does return ILLEGAL, but the very
next `Scan` call returns an EOF token. -/
theorem claim2_counterexample :
    (resN (New "g" [47, 42, 32, 117, 110, 116, 101, 114, 109, 105, 110, 97, 116, 101, 100]) 0).tok
      = .ILLEGAL
    ∧ (resN (New "g" [47, 42, 32, 117, 110, 116, 101, 114, 109, 105, 110, 97, 116, 101, 100]) 1).tok
      = .EOF := by
  decide

/-- C2, amended.  When a `Scan` call returns ILLEGAL with the cursor at
end of input (the unterminated-comment outcome), that ILLEGAL is the only
one: every subsequent `Scan` call on the instance returns the EOF token. -/
theorem claim2_amended (s : Scanner) (n : Nat)
    (h1 : (Scan s).tok = .ILLEGAL) (h2 : (Scan s).s.current = -1) :
    (resN s (n + 1)).tok = .EOF := by
  have h := (eof_forever (Scan s).s h2 n).1
  show (Scan (afterN s (n + 1))).tok = .EOF
  rw [afterN_shift]
  exact h

/-- C2, witness: the amended statement applied to "/* unterminated". -/
theorem claim2_witness :
    (resN (New "g" [47, 42, 32, 117, 110, 116, 101, 114, 109, 105, 110, 97, 116, 101, 100]) 1).tok
      = .EOF
    ∧ (resN (New "g" [47, 42, 32, 117, 110, 116, 101, 114, 109, 105, 110, 97, 116, 101, 100]) 2).tok
      = .EOF :=
  ⟨claim2_amended (New "g" [47, 42, 32, 117, 110, 116, 101, 114, 109, 105, 110, 97, 116, 101, 100])
      0 (by decide) (by decide),
   claim2_amended (New "g" [47, 42, 32, 117, 110, 116, 101, 114, 109, 105, 110, 97, 116, 101, 100])
      1 (by decide) (by decide)⟩

/-- C3.  The scanner does emit "/**/" as a single ordinary COMMENT token
(first three conjuncts), but the API-comment predicate of
description/comment.go is a bare prefix test, so `IsAPI` returns TRUE on
the degenerate literal "/**/", contradicting the claim that it is false
exactly there. -/
theorem claim3_api_predicate :
    (Scan (New "f" [47, 42, 42, 47])).tok = .COMMENT
    ∧ (Scan (New "f" [47, 42, 42, 47])).lit = [47, 42, 42, 47]
    ∧ (resN (New "f" [47, 42, 42, 47]) 1).tok = .EOF
    ∧ Comment.IsAPI ⟨⟨"f", 0, 0⟩, ⟨"f", 0, 3⟩, [47, 42, 42, 47]⟩ = true := by
  decide

/-- C4.  A `.` not followed by a second `.` yields one ILLEGAL token with
literal ".", the dot alone is consumed (the returned state is exactly one
`next` past it, with no `moveToken`), so the rune after the dot is
re-examined fresh by the following `Scan` call; and "1.2" scans to
NUMBER "1", ILLEGAL ".", NUMBER "2", EOF. -/
theorem claim4_dot_illegal :
    (∀ s : Scanner,
      (skipSpaceF (s.src.length + 1) s).current = 46 →
      (next (skipSpaceF (s.src.length + 1) s)).current ≠ 46 →
      Scan s = ⟨⟨(skipSpaceF (s.src.length + 1) s).filename,
                 (skipSpaceF (s.src.length + 1) s).tokLine,
                 (skipSpaceF (s.src.length + 1) s).tokCol⟩,
                .ILLEGAL, [46], next (skipSpaceF (s.src.length + 1) s)⟩)
    ∧ (resN (New "f" [49, 46, 50]) 0).tok = .NUMBER
    ∧ (resN (New "f" [49, 46, 50]) 0).lit = [49]
    ∧ (resN (New "f" [49, 46, 50]) 1).tok = .ILLEGAL
    ∧ (resN (New "f" [49, 46, 50]) 1).lit = [46]
    ∧ (resN (New "f" [49, 46, 50]) 2).tok = .NUMBER
    ∧ (resN (New "f" [49, 46, 50]) 2).lit = [50]
    ∧ (resN (New "f" [49, 46, 50]) 3).tok = .EOF := by
  refine ⟨?_, by decide, by decide, by decide, by decide, by decide, by decide, by decide⟩
  intro s hdot hne
  exact scanBody_dot (s.src.length + 1) _ hdot hne

/-- C4, witness: the general statement applied to the input ".;". -/
theorem claim4_witness :
    Scan (New "f" [46, 59])
      = ⟨⟨(skipSpaceF ((New "f" [46, 59]).src.length + 1) (New "f" [46, 59])).filename,
          (skipSpaceF ((New "f" [46, 59]).src.length + 1) (New "f" [46, 59])).tokLine,
          (skipSpaceF ((New "f" [46, 59]).src.length + 1) (New "f" [46, 59])).tokCol⟩,
         .ILLEGAL, [46], next (skipSpaceF ((New "f" [46, 59]).src.length + 1) (New "f" [46, 59]))⟩ :=
  claim4_dot_illegal.1 (New "f" [46, 59]) (by decide) (by decide)

/-- C5, counterexample.  The claim says the literal of a CR/LF-terminated
line comment excludes the terminator.  Scanning "//x\nY" yields a COMMENT
whose literal is "//x\n" — the LF byte included — not "//x". -/
theorem claim5_counterexample :
    (Scan (New "f" [47, 47, 120, 10, 89])).tok = .COMMENT
    ∧ (Scan (New "f" [47, 47, 120, 10, 89])).lit = [47, 47, 120, 10]
    ∧ ¬ (Scan (New "f" [47, 47, 120, 10, 89])).lit = [47, 47, 120] := by
  decide

/-- C5, amended.  For a line comment terminated by CR or LF, the scanner
consumes the terminator before slicing: the emitted COMMENT literal runs
from the opening `//` through the byte position one pending-width step
PAST the loop's stopping point, i.e. it includes the terminating CR/LF
rune, and scanning resumes after it. -/
theorem claim5_amended (s : Scanner)
    (h1 : (skipSpaceF (s.src.length + 1) s).current = 47)
    (h2 : (next (skipSpaceF (s.src.length + 1) s)).current = 47)
    (h3 : literal (next (next (skipSpaceF (s.src.length + 1) s))) = [47, 47])
    (h4 : (runWhile notEol (s.src.length + 1)
            (next (next (skipSpaceF (s.src.length + 1) s)))).current = 10
        ∨ (runWhile notEol (s.src.length + 1)
            (next (next (skipSpaceF (s.src.length + 1) s)))).current = 13) :
    Scan s = ⟨⟨(skipSpaceF (s.src.length + 1) s).filename,
               (skipSpaceF (s.src.length + 1) s).tokLine,
               (skipSpaceF (s.src.length + 1) s).tokCol⟩, .COMMENT,
        literal (next (runWhile notEol (s.src.length + 1)
          (next (next (skipSpaceF (s.src.length + 1) s))))),
        moveToken (next (runWhile notEol (s.src.length + 1)
          (next (next (skipSpaceF (s.src.length + 1) s)))))⟩
    ∧ (next (runWhile notEol (s.src.length + 1)
          (next (next (skipSpaceF (s.src.length + 1) s))))).pos
        = (runWhile notEol (s.src.length + 1)
            (next (next (skipSpaceF (s.src.length + 1) s)))).pos
          + (runWhile notEol (s.src.length + 1)
              (next (next (skipSpaceF (s.src.length + 1) s)))).w
    ∧ 1 ≤ (runWhile notEol (s.src.length + 1)
        (next (next (skipSpaceF (s.src.length + 1) s)))).w := by
  refine ⟨?_, next_pos _, ?_⟩
  · exact scanBody_lineComment (s.src.length + 1) _ h1 h2 h3
  · have hse : Inv (runWhile notEol (s.src.length + 1)
        (next (next (skipSpaceF (s.src.length + 1) s)))) :=
      runWhile_inv _ _ _ (inv_next _)
    have hne : (runWhile notEol (s.src.length + 1)
        (next (next (skipSpaceF (s.src.length + 1) s)))).current ≠ -1 := by
      rcases h4 with h | h <;> rw [h] <;> decide
    exact (hse hne).1

/-- C5, witness: the amended statement applied to the input "//\n". -/
theorem claim5_witness :
    (Scan (New "h" [47, 47, 10])).tok = .COMMENT
    ∧ 1 ≤ (runWhile notEol ((New "h" [47, 47, 10]).src.length + 1)
        (next (next (skipSpaceF ((New "h" [47, 47, 10]).src.length + 1)
          (New "h" [47, 47, 10]))))).w :=
  ⟨by decide,
   (claim5_amended (New "h" [47, 47, 10]) (by decide) (by decide)
      (by decide) (by decide)).2.2⟩

/-- C6.  On the input 0xFF 'a' — which contains an invalid UTF-8 byte, as
the last conjunct confirms against `DecodeRune` — the scanner records NO
ScanError and substitutes no sentinel: `DecodeLastRune` happily decodes
the final 'a' of the remaining buffer, so the scanner emits an IDENT whose
literal still contains the raw invalid byte, with an empty error list.  On
input 0xFF alone the decode does fail, and then the claim's mechanism
works: one ScanError is appended and the sentinel is classified as an
ordinary (ILLEGAL) character. -/
theorem claim6_encoding :
    (Scan (New "f" [255, 97])).tok = .IDENT
    ∧ (Scan (New "f" [255, 97])).lit = [255, 97]
    ∧ (Scan (New "f" [255, 97])).s.errs = []
    ∧ (resN (New "f" [255, 97]) 1).tok = .EOF
    ∧ decodeRune [255, 97] = (runeError, 1)
    ∧ (Scan (New "f" [255])).s.errs = [⟨⟨"f", 0, 0⟩⟩]
    ∧ (Scan (New "f" [255])).tok = .ILLEGAL
    ∧ (Scan (New "f" [255])).lit = [255] := by
  decide

/-- C7.  Once a `Scan` call has returned the EOF token, every subsequent
`Scan` call on the same scanner instance returns EOF again. -/
theorem claim7_eof_idempotent (s : Scanner) (n : Nat)
    (h : (resN s 0).tok = .EOF) : (resN s n).tok = .EOF := by
  have hcur : (Scan s).s.current = -1 := scan_tok_eof_state s h
  cases n with
  | zero => exact h
  | succ n =>
    have he := (eof_forever (Scan s).s hcur n).1
    show (Scan (afterN s (n + 1))).tok = .EOF
    rw [afterN_shift]
    exact he

/-- C7, witness: the empty input returns EOF at once and keeps doing so. -/
theorem claim7_witness :
    (resN (New "f" []) 0).tok = .EOF ∧ (resN (New "f" []) 3).tok = .EOF :=
  ⟨by decide, claim7_eof_idempotent (New "f" []) 3 (by decide)⟩

/-- C8.  Between two successive tokens of the same scanner instance the
(line, column) position never decreases in lexicographic order: the later
token's position is never `Less` than the earlier one's. -/
theorem claim8_position_monotone (file : String) (src : List Nat) (n : Nat) :
    Position.Less (resN (New file src) (n + 1)).pos (resN (New file src) n).pos = false :=
  lcLe_not_less _ _ (scan_pos_mono (afterN (New file src) n))

/-- C9.  Scanning is deterministic: two scanner instances freshly
constructed over the same filename and input buffer produce identical
results on every `Scan` call — in this embedding a scanner's output is a
pure function of `(file, src)`, so no hidden state can influence it. -/
theorem claim9_determinism (file : String) (src : List Nat) (s1 s2 : Scanner)
    (h1 : s1 = New file src) (h2 : s2 = New file src) (n : Nat) :
    resN s1 n = resN s2 n := by
  rw [h1, h2]

/-- C9, witness: two fresh scanners over ";" agree on the first call. -/
theorem claim9_witness :
    resN (New "f" [59]) 0 = resN (New "f" [59]) 0
    ∧ (resN (New "f" [59]) 0).tok = .SEMICOLON :=
  ⟨claim9_determinism "f" [59] (New "f" [59]) (New "f" [59]) rfl rfl 0, by decide⟩

/-- C10.  Every `Scan` call terminates on every finite buffer: `New`
establishes the cursor invariant, `next` re-establishes it and strictly
advances the byte cursor away from EOF, `Scan` preserves it, and under it
the standard loop fuel `src.length + 1` is exact — any extra fuel produces
the same result, i.e. every loop has already reached a token boundary or
end of input. -/
theorem claim10_termination :
    (∀ (file : String) (src : List Nat), Inv (New file src))
    ∧ (∀ s : Scanner, Inv (next s))
    ∧ (∀ s : Scanner, Inv s → s.current ≠ -1 → s.pos < (next s).pos)
    ∧ (∀ (s : Scanner) (extra : Nat), Inv s → ScanF (s.src.length + 1 + extra) s = Scan s)
    ∧ (∀ s : Scanner, Inv s → Inv (Scan s).s) := by
  refine ⟨inv_New, inv_next, ?_, ?_, ?_⟩
  · intro s h hc
    rcases h hc with ⟨hw, hp⟩
    rw [next_pos]
    omega
  · intro s extra h
    exact ScanF_fuel s extra h
  · intro s h
    exact scanF_inv _ s h

/-- C10, witness: on the input "/*x" (whose scan exercises the block
comment loop to end of input), fuel `length + 1 + 5` gives the same result
as the standard fuel. -/
theorem claim10_witness :
    ScanF ((New "a" [47, 42, 120]).src.length + 1 + 5) (New "a" [47, 42, 120])
      = Scan (New "a" [47, 42, 120]) :=
  claim10_termination.2.2.2.1 (New "a" [47, 42, 120]) 5 (by unfold Inv; decide)

end Hdl
